import Mathlib

/-!
Verification of the brachiograph pen-plotter firmware and library.

The development shallowly embeds the Rust sources of the repository:
`crates/brachiograph/src/geom.rs` (kinematics and workspace validation),
`crates/brachiograph/src/pwm.rs` (servo calibration tables),
`crates/brachiograph/src/lib.rs` (motion state machine) and
`embedded/src/main.rs` (operation queue and command dispatch).

The scalar type of the firmware is `fixed::types::I20F12`, a signed 32-bit
fixed-point number with 12 fractional bits.  We model it as an integer raw
value in the interval `[-2^31, 2^31)` carrying the value `raw / 4096`.
Arithmetic wraps on overflow, which is the semantics the specification
assigns to the type (the claims never exercise an overflow).  Fallible or
panicking operations are modelled with `Option`.
-/

/-- Two's-complement wrap of an integer into the signed 32-bit range,
the overflow behaviour of the Q20.12 scalar. -/
def wrap (x : Int) : Int := (x + 2147483648) % 4294967296 - 2147483648

theorem wrap_lb (x : Int) : -2147483648 ≤ wrap x := by
  unfold wrap
  omega

theorem wrap_ub (x : Int) : wrap x < 2147483648 := by
  unfold wrap
  omega

theorem wrap_eq_of_mem {x : Int} (h1 : -2147483648 ≤ x) (h2 : x < 2147483648) :
    wrap x = x := by
  unfold wrap
  omega

/-- The Q20.12 fixed-point scalar `fixed::types::I20F12`:
a signed 32-bit raw value scaled by `2^12 = 4096`. -/
def Fixed : Type := {x : Int // -2147483648 ≤ x ∧ x < 2147483648}

instance : DecidableEq Fixed :=
  inferInstanceAs (DecidableEq {x : Int // -2147483648 ≤ x ∧ x < 2147483648})

/-- Build a `Fixed` from a raw integer, wrapping into the 32-bit range. -/
def Fixed.mk (x : Int) : Fixed := ⟨wrap x, wrap_lb x, wrap_ub x⟩

/-- The raw (scaled by 4096) integer value of a `Fixed`. -/
def Fixed.raw (a : Fixed) : Int := a.val

def Fixed.add (a b : Fixed) : Fixed := Fixed.mk (a.val + b.val)

def Fixed.sub (a b : Fixed) : Fixed := Fixed.mk (a.val - b.val)

def Fixed.neg (a : Fixed) : Fixed := Fixed.mk (-a.val)

/-- Fixed-point multiplication: the double-width product is shifted right by
12 bits (arithmetic shift, i.e. floor). -/
def Fixed.mul (a b : Fixed) : Fixed := Fixed.mk ((a.val * b.val).fdiv 4096)

/-- Fixed-point division: the numerator is shifted left by 12 bits and the
quotient truncates toward zero, as Rust integer division does.  Division by
zero panics in Rust; no call site reached by the claims divides by zero. -/
def Fixed.div (a b : Fixed) : Fixed := Fixed.mk ((a.val * 4096).tdiv b.val)

/-- Multiplication by a plain integer (exact, no shift). -/
def Fixed.mulInt (a : Fixed) (n : Int) : Fixed := Fixed.mk (a.val * n)

/-- Division by a plain integer (quotient truncates toward zero). -/
def Fixed.divInt (a : Fixed) (n : Int) : Fixed := Fixed.mk (a.val.tdiv n)

/-- Conversion of an integer into the fixed-point type. -/
def Fixed.ofInt (n : Int) : Fixed := Fixed.mk (n * 4096)

def Fixed.absF (a : Fixed) : Fixed := Fixed.mk (if a.val < 0 then -a.val else a.val)

def Fixed.maxF (a b : Fixed) : Fixed := if a.val < b.val then b else a

/-- The `clamp` method of the fixed crate. -/
def Fixed.clampF (a lo hi : Fixed) : Fixed :=
  if a.val < lo.val then lo else if hi.val < a.val then hi else a

/-- Raw value of the constant `Fixed::PI` of the fixed crate. -/
def Fixed.pi : Fixed := Fixed.mk 12868

/-- Raw value of the constant `Fixed::FRAC_PI_2`. -/
def Fixed.fracPi2 : Fixed := Fixed.mk 6434

/-- Raw value of the constant `Fixed::FRAC_PI_4`. -/
def Fixed.fracPi4 : Fixed := Fixed.mk 3217

theorem Fixed.mk_val (a : Fixed) : Fixed.mk a.val = a := by
  apply Subtype.ext
  exact wrap_eq_of_mem a.property.1 a.property.2

/-!
CORDIC trigonometry.

The geometry code calls `cordic::{asin, atan, sqrt}` on `Fixed` values.
The cordic crate is an external dependency whose implementation is not part
of this repository, so the three routines are modelled from the
specification, which describes the FixedMath component as Q20.12 `sin, cos,
asin, atan, sqrt` via CORDIC.
-/

/-- Modelled from the spec: table of `atan (2 ^ -i)` in radians scaled by
`2 ^ 20`, for the CORDIC vectoring iterations of the FixedMath component
(the implementation lives in the external cordic dependency, not under the
repository sources). -/
def atanTable : List Int :=
  [823550, 486169, 256878, 130385, 65451, 32756, 16382, 8191,
   4096, 2048, 1024, 512, 256, 128, 64, 32]

/-- Modelled from the spec: the CORDIC vectoring passes driving the `y`
coordinate to zero while accumulating the rotation angle in `z`.  The
argument `p` holds the current power of two, so the arithmetic right shift
by the iteration index is a floor division by `p`. -/
def atanRun : List Int → Int → Int → Int → Int → Int
  | [], _, _, _, z => z
  | t :: rest, p, x, y, z =>
    if 0 ≤ y then atanRun rest (p * 2) (x + y.fdiv p) (y - x.fdiv p) (z + t)
    else atanRun rest (p * 2) (x - y.fdiv p) (y + x.fdiv p) (z - t)

/-- Modelled from the spec: CORDIC arctangent on the Q20.12 scalar, the
`cordic::atan` routine of the FixedMath component.  Internal scale `2 ^ 20`,
result rounded to the nearest Q20.12 value. -/
def atanF (t : Fixed) : Fixed :=
  Fixed.mk ((atanRun atanTable 1 1048576 (t.val * 256) 0 + 128).fdiv 256)

/-- Newton iteration for the integer square root, with explicit fuel so
that the recursion is structural and kernel-reducible. -/
def isqrtAux : Nat → Nat → Nat → Nat
  | 0, _, guess => guess
  | fuel + 1, n, guess =>
    let next := (guess + n / guess) / 2
    if next < guess then isqrtAux fuel n next else guess

/-- Floor square root of a natural number (Newton iteration from `n / 2`). -/
def isqrt (n : Nat) : Nat := if n ≤ 1 then n else isqrtAux n n (n / 2)

/-- Modelled from the spec: fixed-point square root (`cordic::sqrt`),
the floor square root of the Q20.12 value; negative inputs map to zero. -/
def sqrtF (t : Fixed) : Fixed :=
  if t.val ≤ 0 then Fixed.mk 0 else Fixed.mk (Int.ofNat (isqrt (t.val.toNat * 4096)))

/-- Modelled from the spec: fixed-point arcsine (`cordic::asin`), computed
as `atan (t / sqrt (1 - t^2))` with saturation at the domain ends. -/
def asinF (t : Fixed) : Fixed :=
  if 4096 ≤ t.val then Fixed.fracPi2
  else if t.val ≤ -4096 then Fixed.fracPi2.neg
  else atanF (t.div (sqrtF ((Fixed.ofInt 1).sub (t.mul t))))

/-!
Angles (`Angle` in `lib.rs`): a Q20.12 number of degrees.
-/

/-- An angle stored as a fixed-point number of degrees (`Angle` in `lib.rs`). -/
structure Angle where
  deg : Fixed
deriving DecidableEq

/-- `Angle::from_degrees` applied to an integer (the conversion is exact). -/
def Angle.fromDegInt (n : Int) : Angle := ⟨Fixed.ofInt n⟩

/-- `Angle::from_radians`: `rad * 180 / Fixed::PI`. -/
def Angle.fromRadians (r : Fixed) : Angle := ⟨(r.mulInt 180).div Fixed.pi⟩

/-- `Angle::degrees`. -/
def Angle.degrees (a : Angle) : Fixed := a.deg

/-- `Angle::radians`: `degrees * Fixed::PI / 180`. -/
def Angle.radians (a : Angle) : Fixed := (a.deg.mul Fixed.pi).divInt 180

/-- Negation of an angle. -/
def Angle.negA (a : Angle) : Angle := ⟨a.deg.neg⟩

/-- The pair of joint angles (`Angles` in `lib.rs`). -/
structure Angles where
  shoulder : Angle
  elbow : Angle
deriving DecidableEq

/-!
Geometry (`geom.rs`).
-/

/-- The geometry configuration (`geom::Config`). -/
structure Config where
  armLen : Fixed
  shoulderRange : Angle × Angle
  elbowRange : Angle × Angle
  xRange : Fixed × Fixed
  yRange : Fixed × Fixed
deriving DecidableEq

/-- `impl Default for Config`: arm length 8, shoulder range [-45, 120]
degrees, elbow range [-60, 75] degrees, x range [-8, 8], y range [5, 13]. -/
def defaultConfig : Config where
  armLen := Fixed.ofInt 8
  shoulderRange := (Angle.fromDegInt (-45), Angle.fromDegInt 120)
  elbowRange := (Angle.fromDegInt (-60), Angle.fromDegInt 75)
  xRange := (Fixed.ofInt (-8), Fixed.ofInt 8)
  yRange := (Fixed.ofInt 5, Fixed.ofInt 13)

/-- `Config::shoulder_is_valid`. -/
def shoulderIsValid (cfg : Config) (a : Angle) : Bool :=
  decide (cfg.shoulderRange.1.degrees.val ≤ a.degrees.val) &&
  decide (a.degrees.val ≤ cfg.shoulderRange.2.degrees.val)

/-- `Config::elbow_is_valid`. -/
def elbowIsValid (cfg : Config) (a : Angle) : Bool :=
  decide (cfg.elbowRange.1.degrees.val ≤ a.degrees.val) &&
  decide (a.degrees.val ≤ cfg.elbowRange.2.degrees.val)

/-- `Config::coord_is_valid`. -/
def coordIsValid (cfg : Config) (x y : Fixed) : Bool :=
  decide (cfg.xRange.1.val ≤ x.val) && decide (x.val ≤ cfg.xRange.2.val) &&
  decide (cfg.yRange.1.val ≤ y.val) && decide (y.val ≤ cfg.yRange.2.val)

/-- `Config::at_coord_impl`: inverse kinematics.  Returns an error exactly
when the requested point is outside the configured rectangle; otherwise
computes the polar angle with the overflow-avoiding branch on comparing the
absolute values of the two coordinates, clamps the elbow sine into [-1, 1]
and produces the two joint angles. -/
def atCoordImpl (cfg : Config) (x y : Fixed) : Except Unit Angles :=
  if x.val < cfg.xRange.1.val ∨ cfg.xRange.2.val < x.val ∨
     y.val < cfg.yRange.1.val ∨ cfg.yRange.2.val < y.val then
    .error ()
  else
    let r2 := (x.mul x).add (y.mul y)
    let theta :=
      if y.absF.val < x.absF.val then
        let t := atanF (y.div x)
        if t.val < 0 then t.add Fixed.pi else t
      else
        Fixed.fracPi2.sub (atanF (x.div y))
    let sinElbow := (Fixed.ofInt 1).sub
      (r2.div ((cfg.armLen.mulInt 2).mul cfg.armLen))
    let sinElbow := sinElbow.clampF (Fixed.ofInt (-1)) (Fixed.ofInt 1)
    let elbowRads := (asinF sinElbow).neg
    let elbow := Angle.fromRadians elbowRads
    let shoulderRads := ((Fixed.fracPi2.add Fixed.fracPi4).sub theta).add
      (elbowRads.divInt 2)
    let shoulder := Angle.fromRadians shoulderRads
    .ok ⟨shoulder, elbow⟩

/-- The corner check closure of `Config::is_valid`: the corner must be
reachable and its joint angles inside both joint ranges. -/
def cornerOk (cfg : Config) (x y : Fixed) : Bool :=
  match atCoordImpl cfg x y with
  | .error _ => false
  | .ok a => shoulderIsValid cfg a.shoulder && elbowIsValid cfg a.elbow

/-- The horizontal-boundary critical-point check of `Config::is_valid` on
the line y = a: forearm vertical, shoulder `asin ((a - l) / l)`, elbow its
negation, at `x = -sqrt (l^2 - (a-l)^2)` when that x lies in the x range. -/
def horizCritOk (cfg : Config) (a : Fixed) : Bool :=
  let ell := cfg.armLen
  let shoulderAngle := Angle.fromRadians (asinF ((a.sub ell).div ell))
  let elbowAngle := shoulderAngle.negA
  let x := (sqrtF ((ell.mul ell).sub ((a.sub ell).mul (a.sub ell)))).neg
  if cfg.xRange.1.val ≤ x.val ∧ x.val ≤ cfg.xRange.2.val then
    shoulderIsValid cfg shoulderAngle && elbowIsValid cfg elbowAngle
  else true

/-- The vertical-boundary critical-point check of `Config::is_valid` on the
line x = b > 0: forearm horizontal, elbow `-asin ((b - l) / l)`, shoulder
`pi/2 + elbow`, at `y = sqrt (l^2 - (b-l)^2)` when that y lies in the
y range. -/
def vertCritOk (cfg : Config) (b : Fixed) : Bool :=
  if 0 < b.val then
    let ell := cfg.armLen
    let elbowRads := (asinF ((b.sub ell).div ell)).neg
    let elbowAngle := Angle.fromRadians elbowRads
    let shoulderAngle := Angle.fromRadians (Fixed.fracPi2.add elbowRads)
    let y := sqrtF ((ell.mul ell).sub ((b.sub ell).mul (b.sub ell)))
    if cfg.yRange.1.val ≤ y.val ∧ y.val ≤ cfg.yRange.2.val then
      shoulderIsValid cfg shoulderAngle && elbowIsValid cfg elbowAngle
    else true
  else true

/-- `Config::is_valid`: ordering constraints on the rectangle, the radial
reachability bound, the four corners, the horizontal critical points, the
elbow-backwards guard, and the vertical critical points. -/
def isValid (cfg : Config) : Bool :=
  let y0 := cfg.yRange.1
  let y1 := cfg.yRange.2
  let x0 := cfg.xRange.1
  let x1 := cfg.xRange.2
  let ell := cfg.armLen
  if y0.val ≤ 0 ∨ y1.val ≤ y0.val ∨ x1.val ≤ x0.val then false
  else
    let xMax := Fixed.maxF x0.absF x1.absF
    if ((ell.mulInt 4).mul ell).val ≤ ((xMax.mul xMax).add (y1.mul y1)).val then
      false
    else if !(cornerOk cfg x0 y0 && cornerOk cfg x0 y1 &&
              cornerOk cfg x1 y0 && cornerOk cfg x1 y1) then false
    else if !(horizCritOk cfg y0 && horizCritOk cfg y1) then false
    else if cfg.elbowRange.1.degrees.val < -368640 then false
    else if !(vertCritOk cfg x0 && vertCritOk cfg x1) then false
    else true

/-- A geometry configuration equal to the default one except for the two
joint-angle ranges, which are arbitrary.  `at_coord` never consults them,
which formalises that the returned angles are not range-checked. -/
def defaultConfigWith (sr er : Angle × Angle) : Config :=
  { defaultConfig with shoulderRange := sr, elbowRange := er }

set_option maxRecDepth 100000 in
/-- C1: the default geometry configuration (arm length 8, shoulder range
[-45, 120] degrees, elbow range [-60, 75] degrees, x range [-8, 8],
y range [5, 13]) satisfies `Config::is_valid`. -/
theorem default_config_is_valid : isValid defaultConfig = true := by decide

/-- C6: `at_coord` succeeds exactly on the configured rectangle: for the
default rectangle [-8, 8] x [5, 13] and arbitrary joint-angle ranges,
`at_coord_impl` returns `Ok` some angles if and only if the requested point
lies inside the rectangle, and otherwise returns the error; the joint-angle
ranges of the configuration play no role in the outcome. -/
theorem at_coord_ok_iff_in_rect (sr er : Angle × Angle) (x y : Fixed) :
    (∃ a, atCoordImpl (defaultConfigWith sr er) x y = .ok a) ↔
      (defaultConfig.xRange.1.val ≤ x.val ∧ x.val ≤ defaultConfig.xRange.2.val ∧
       defaultConfig.yRange.1.val ≤ y.val ∧ y.val ≤ defaultConfig.yRange.2.val) := by
  unfold atCoordImpl defaultConfigWith
  by_cases h : x.val < defaultConfig.xRange.1.val ∨ defaultConfig.xRange.2.val < x.val ∨
      y.val < defaultConfig.yRange.1.val ∨ defaultConfig.yRange.2.val < y.val
  · simp only [h, if_pos]
    constructor
    · rintro ⟨a, ha⟩
      exact absurd ha (by simp)
    · intro hin
      exact absurd h (by omega)
  · simp only [h, if_neg, not_false_iff]
    constructor
    · intro _
      omega
    · intro _
      exact ⟨_, rfl⟩

/-!
Servo calibration and PWM mapping (`pwm.rs`).
-/

/-- The pen state (`PenState` in `lib.rs`). -/
inductive PenState
  | up
  | down
deriving DecidableEq

/-- Logical negation of the pen state (`impl Not for PenState`). -/
def PenState.notP : PenState → PenState
  | .up => .down
  | .down => .up

/-- The `round` method of the fixed crate (nearest integer, ties away from
zero) followed by `to_num`: the duty in microseconds as a plain integer. -/
def roundFx (a : Fixed) : Int :=
  if 0 ≤ a.val then (a.val + 2048).fdiv 4096 else -((2048 - a.val).fdiv 4096)

/-- A per-joint pair of direction-specific calibration tables (`pwm::Pwm`).
Each entry is a pair of a degree value (an `i16` in Rust) and a pulse width
in microseconds (a `u16`). -/
structure Pwm where
  inc : List (Int × Int)
  dec : List (Int × Int)
deriving DecidableEq

/-- `Pwm::shoulder`, the default shoulder table. -/
def Pwm.shoulderDefault : Pwm where
  inc := [(-45, 2333), (120, 500)]
  dec := [(-45, 2333), (120, 500)]

/-- `Pwm::elbow`, the default elbow table. -/
def Pwm.elbowDefault : Pwm where
  inc := [(-60, 2167), (75, 833)]
  dec := [(-60, 2167), (75, 833)]

/-- The two-state pen table (`pwm::TogglePwm`); the fields are named `on`
and `off` in the Rust source. -/
structure TogglePwm where
  onDuty : Int
  offDuty : Int
deriving DecidableEq

/-- `TogglePwm::pen`. -/
def TogglePwm.penDefault : TogglePwm where
  onDuty := 1250
  offDuty := 750

/-- `TogglePwm::duty`. -/
def TogglePwm.dutyT (t : TogglePwm) (s : PenState) : Int :=
  match s with
  | .up => t.offDuty
  | .down => t.onDuty

/-- The loop of `Pwm::duty` over `windows(2)` of the chosen table, with the
final fall-through value passed in as `fb` (in the Rust code the
fall-through is `self.inc.last().unwrap().1`).  `none` models a panic:
either the fixed-point division by zero when two adjacent entries carry the
same degree value, or the `unwrap` of an empty `inc` table reaching the
fall-through. -/
def dutyGo : List (Int × Int) → Fixed → Option Int → Option Int
  | a :: b :: rest, deg, fb =>
    if deg.val < (Fixed.ofInt a.1).val then some a.2
    else if deg.val ≤ (Fixed.ofInt b.1).val then
      if ((Fixed.ofInt b.1).sub (Fixed.ofInt a.1)).val = 0 then none
      else
        some (roundFx
          (((Fixed.ofInt a.2).mul
              ((Fixed.ofInt 1).sub
                ((deg.sub (Fixed.ofInt a.1)).div
                  ((Fixed.ofInt b.1).sub (Fixed.ofInt a.1))))).add
            ((Fixed.ofInt b.2).mul
              ((deg.sub (Fixed.ofInt a.1)).div
                ((Fixed.ofInt b.1).sub (Fixed.ofInt a.1))))))
    else dutyGo (b :: rest) deg fb
  | _, _, fb => fb

/-- `Pwm::duty`: chooses the `inc` table when the new angle is strictly
greater than the last commanded one and the `dec` table otherwise, then
interpolates linearly between the bracketing entries. -/
def Pwm.duty (p : Pwm) (lastAngle angle : Angle) : Option Int :=
  let fb := (p.inc.getLast?).map Prod.snd
  if lastAngle.degrees.val < angle.degrees.val then dutyGo p.inc angle.degrees fb
  else dutyGo p.dec angle.degrees fb

/-- The joint selector (`Joint` in `lib.rs`). -/
inductive Joint
  | shoulder
  | elbow
deriving DecidableEq

/-- The hysteresis direction selector (`Direction` in `lib.rs`). -/
inductive Direction
  | increasing
  | decreasing
deriving DecidableEq

/-- The full calibration state (`pwm::Calibration`). -/
structure Calibration where
  shoulder : Pwm
  elbow : Pwm
  pen : TogglePwm
deriving DecidableEq

/-- `impl Default for Calibration`. -/
def Calibration.defaultC : Calibration :=
  ⟨Pwm.shoulderDefault, Pwm.elbowDefault, TogglePwm.penDefault⟩

/-- The all-zero pair of angles, `Angles::default`. -/
def anglesZero : Angles := ⟨⟨Fixed.mk 0⟩, ⟨Fixed.mk 0⟩⟩

/-- `pwm::CalibratedPosition`: the calibration plus the previously
commanded angles used for hysteresis correction. -/
structure CalibratedPosition where
  calib : Calibration
  lastAngles : Angles
deriving DecidableEq

/-- `impl Default for CalibratedPosition`. -/
def CalibratedPosition.defaultCP : CalibratedPosition :=
  ⟨Calibration.defaultC, anglesZero⟩

/-- `CalibratedPosition::change_calibration`: replaces one of the four
tables with the supplied list (an `ArrayVec` of up to 16 entries, possibly
empty). -/
def CalibratedPosition.changeCalibration (c : CalibratedPosition) (j : Joint)
    (d : Direction) (data : List (Int × Int)) : CalibratedPosition :=
  match j, d with
  | .shoulder, .increasing =>
      { c with calib := { c.calib with shoulder := { c.calib.shoulder with inc := data } } }
  | .shoulder, .decreasing =>
      { c with calib := { c.calib with shoulder := { c.calib.shoulder with dec := data } } }
  | .elbow, .increasing =>
      { c with calib := { c.calib with elbow := { c.calib.elbow with inc := data } } }
  | .elbow, .decreasing =>
      { c with calib := { c.calib with elbow := { c.calib.elbow with dec := data } } }

/-- C3: evaluating `Pwm::duty` on the default shoulder table with last and
new angle both 0 degrees.  The linear interpolation between the entries
(-45, 2333) and (120, 500) yields 1833 microseconds, not a value within
10 of the 916 asserted by the specification and by the crate's own unit
test `precomputed_duties`. -/
theorem shoulder_duty_at_zero :
    Pwm.shoulderDefault.duty (Angle.fromDegInt 0) (Angle.fromDegInt 0) = some 1833 := by
  decide

/-- C4, counterexample: after `change_calibration` replaces the increasing
shoulder table with the empty list, `Pwm::duty` on an increasing command
falls through its interpolation loop and panics on `inc.last().unwrap()`
(modelled by `none`). -/
theorem duty_after_empty_calibration :
    ((CalibratedPosition.defaultCP.changeCalibration .shoulder .increasing
        []).calib.shoulder.duty
      (Angle.fromDegInt 0) (Angle.fromDegInt 1)) = none := by
  decide

/-- A calibration table has strictly increasing degree entries. -/
abbrev strictlyIncDeg (l : List (Int × Int)) : Prop :=
  List.Chain' (fun a b => a.1 < b.1) l

/-- Every degree entry of the table fits in an `i16`, as the Rust entry
type `(i16, u16)` guarantees. -/
abbrev entryDegBounded (l : List (Int × Int)) : Prop :=
  ∀ e ∈ l, -32768 ≤ e.1 ∧ e.1 < 32768

theorem ofInt_sub_val {m n : Int} (hm1 : -32768 ≤ m) (hm2 : m < 32768)
    (hn1 : -32768 ≤ n) (hn2 : n < 32768) :
    ((Fixed.ofInt n).sub (Fixed.ofInt m)).val = (n - m) * 4096 := by
  show wrap (wrap (n * 4096) - wrap (m * 4096)) = (n - m) * 4096
  have hA : wrap (n * 4096) = n * 4096 := wrap_eq_of_mem (by omega) (by omega)
  have hB : wrap (m * 4096) = m * 4096 := wrap_eq_of_mem (by omega) (by omega)
  rw [hA, hB, wrap_eq_of_mem (by omega) (by omega)]
  ring

theorem dutyGo_isSome (deg : Fixed) :
    ∀ (l : List (Int × Int)) (fb : Option Int), strictlyIncDeg l →
      entryDegBounded l → fb.isSome = true → (dutyGo l deg fb).isSome = true := by
  intro l
  induction l with
  | nil => intro fb _ _ hfb; simpa [dutyGo] using hfb
  | cons a rest ih =>
    intro fb hchain hbd hfb
    cases rest with
    | nil => simpa [dutyGo] using hfb
    | cons b rest2 =>
      have hab : a.1 < b.1 := (List.chain'_cons.mp hchain).1
      have hchain2 : strictlyIncDeg (b :: rest2) := (List.chain'_cons.mp hchain).2
      have hba : -32768 ≤ a.1 ∧ a.1 < 32768 := hbd a (by simp)
      have hbb : -32768 ≤ b.1 ∧ b.1 < 32768 := hbd b (by simp)
      have hne : ((Fixed.ofInt b.1).sub (Fixed.ofInt a.1)).val ≠ 0 := by
        rw [ofInt_sub_val hba.1 hba.2 hbb.1 hbb.2]
        omega
      simp only [dutyGo]
      by_cases h1 : deg.val < (Fixed.ofInt a.1).val
      · rw [if_pos h1]
        rfl
      · rw [if_neg h1]
        by_cases h2 : deg.val ≤ (Fixed.ofInt b.1).val
        · rw [if_pos h2, if_neg hne]
          rfl
        · rw [if_neg h2]
          exact ih fb hchain2 (fun e he => hbd e (List.mem_cons_of_mem a he)) hfb

/-- C4, amended: `Pwm::duty` is total (never panics) for every calibration
state whose four tables all have strictly increasing `i16` degree entries
and whose `inc` tables are non-empty; replacing a table by an empty list
through `change_calibration` breaks totality, as the counterexample shows. -/
theorem duty_total_of_wellformed (p : Pwm) (lastAngle angle : Angle)
    (hinc : strictlyIncDeg p.inc) (hdec : strictlyIncDeg p.dec)
    (hbi : entryDegBounded p.inc) (hbd : entryDegBounded p.dec)
    (hne : p.inc ≠ []) :
    (p.duty lastAngle angle).isSome = true := by
  unfold Pwm.duty
  have hfb : ((p.inc.getLast?).map Prod.snd).isSome = true := by
    cases hL : p.inc.getLast? with
    | none =>
        exact absurd (List.getLast?_eq_none_iff.mp hL) hne
    | some e => rfl
  split
  · exact dutyGo_isSome _ _ _ hinc hbi hfb
  · exact dutyGo_isSome _ _ _ hdec hbd hfb

/-- Witness for the amended C4 theorem: the default shoulder table is
well-formed and `duty` succeeds on it. -/
theorem duty_total_of_wellformed_witness :
    Pwm.shoulderDefault.inc ≠ [] ∧
      (Pwm.shoulderDefault.duty (Angle.fromDegInt 10)
        (Angle.fromDegInt 20)).isSome = true :=
  ⟨by decide,
   duty_total_of_wellformed Pwm.shoulderDefault (Angle.fromDegInt 10)
     (Angle.fromDegInt 20)
     (List.chain'_cons.mpr ⟨by decide, List.chain'_singleton _⟩)
     (List.chain'_cons.mpr ⟨by decide, List.chain'_singleton _⟩)
     (by decide) (by decide) (by decide)⟩

/-!
Motion state machine (`lib.rs`).  Instants are natural numbers of
microseconds (`fugit::Instant<u64, 1, 1_000_000>`), durations natural
numbers of microseconds.
-/

/-- A point of the drawing plane (`Point` in `lib.rs`). -/
structure Point where
  x : Fixed
  y : Fixed
deriving DecidableEq

/-- Conversion of a whole number of milliseconds into the fixed-point
scalar (`to_millis().to_fixed()`). -/
def msToFixed (n : Nat) : Fixed := Fixed.mk ((n : Int) * 4096)

/-- A movement in progress (`Movement` in `lib.rs`). -/
structure Movement where
  init : Point
  target : Point
  start : Nat
  dur : Nat
deriving DecidableEq

/-- `Movement::interpolate`.  `checked_duration_since(start).unwrap()`
panics when `now` precedes the start instant, modelled by `none`.  The
elapsed time and the duration are truncated to whole milliseconds before
the fixed-point quotient is formed. -/
def Movement.interpolate (m : Movement) (now : Nat) : Option Point :=
  if now < m.start then none
  else
    let total := msToFixed (m.dur / 1000)
    let lam :=
      if 0 < total.val then
        ((msToFixed ((now - m.start) / 1000)).div total).clampF (Fixed.mk 0) (Fixed.ofInt 1)
      else Fixed.ofInt 1
    some ⟨m.init.x.add (lam.mul (m.target.x.sub m.init.x)),
          m.init.y.add (lam.mul (m.target.y.sub m.init.y))⟩

/-- `Movement::is_finished`. -/
def Movement.isFinished (m : Movement) (now : Nat) : Bool :=
  decide (m.start + m.dur ≤ now)

/-- The motion state (`State` in `lib.rs`). -/
inductive MState
  | resting (p : Point) (pen : PenState)
  | moving (m : Movement) (pen : PenState)
  | lifting (p : Point) (pen : PenState) (untilT : Nat)
deriving DecidableEq

/-- `State::update`: returns the updated state together with the current
hand position; `none` models the panic of `Movement::interpolate` on a
`now` earlier than the movement start. -/
def MState.update (s : MState) (now : Nat) : Option (MState × Point) :=
  match s with
  | .resting p pen => some (.resting p pen, p)
  | .moving m pen =>
    if m.isFinished now then some (.resting m.target pen, m.target)
    else (m.interpolate now).map (fun pt => (.moving m pen, pt))
  | .lifting p pen untilT =>
    if untilT ≤ now then some (.resting p pen, p)
    else some (.lifting p pen untilT, p)

/-- The brachiograph state (`Brachiograph` in `lib.rs`). -/
structure Brachiograph where
  config : Config
  speed : Fixed
  state : MState
deriving DecidableEq

/-- `Brachiograph::pen`: while lifting, the reported pen state switches to
the stored (new) value 400 ms before the completion instant. -/
def Brachiograph.pen (b : Brachiograph) (now : Nat) : PenState :=
  match b.state with
  | .resting _ pen => pen
  | .moving _ pen => pen
  | .lifting _ pen finished => if finished - 400000 ≤ now then pen else pen.notP

/-- `RestingBrachiograph::pen_up` reached through `Brachiograph::resting`:
only acts when the machine is resting with the pen down, creating a
`Lifting` state that completes 800 ms later. -/
def Brachiograph.penUpAct (b : Brachiograph) (now : Nat) : Brachiograph :=
  match b.state with
  | .resting p .down => { b with state := .lifting p .up (now + 800000) }
  | _ => b

/-- `RestingBrachiograph::pen_down` reached through
`Brachiograph::resting`: only acts when the machine is resting with the pen
up, creating a `Lifting` state that completes 800 ms later. -/
def Brachiograph.penDownAct (b : Brachiograph) (now : Nat) : Brachiograph :=
  match b.state with
  | .resting p .up => { b with state := .lifting p .down (now + 800000) }
  | _ => b

/-- The straight-line convex combination of the specification, written with
the ratio the firmware actually uses: elapsed whole milliseconds over
duration whole milliseconds, clamped to [0, 1], evaluated in Q20.12. -/
def specLinearPoint (m : Movement) (t : Nat) : Point :=
  let lam := ((msToFixed ((t - m.start) / 1000)).div
      (msToFixed (m.dur / 1000))).clampF (Fixed.mk 0) (Fixed.ofInt 1)
  ⟨m.init.x.add (lam.mul (m.target.x.sub m.init.x)),
   m.init.y.add (lam.mul (m.target.y.sub m.init.y))⟩

theorem wrap_zero : wrap 0 = 0 := by decide

theorem Fixed.mk_zero_val : (Fixed.mk 0).val = 0 := wrap_zero

theorem Fixed.zero_mul (d : Fixed) : (Fixed.mk 0).mul d = Fixed.mk 0 := by
  unfold Fixed.mul
  rw [Fixed.mk_zero_val, Int.zero_mul, Int.zero_fdiv]

theorem Fixed.add_zeroF (x : Fixed) : x.add (Fixed.mk 0) = x := by
  unfold Fixed.add
  rw [Fixed.mk_zero_val, Int.add_zero, Fixed.mk_val]

/-- A movement whose duration is half a millisecond, used to refute the
literal endpoint claim. -/
def movHalfMs : Movement :=
  ⟨⟨Fixed.ofInt 0, Fixed.ofInt 0⟩, ⟨Fixed.ofInt 1, Fixed.ofInt 1⟩, 1000, 500⟩

/-- C7, counterexample: for the movement from (0,0) to (1,1) starting at
instant 1000 with duration 500 microseconds, `State::update` at the start
instant returns the target (1,1), not the initial point (0,0): the
millisecond truncation makes the total duration zero, forcing the
interpolation ratio to one. -/
theorem update_at_start_misses_init :
    (MState.update (.moving movHalfMs .up) 1000).map Prod.snd =
        some ⟨Fixed.ofInt 1, Fixed.ofInt 1⟩ ∧
      decide ((⟨Fixed.ofInt 1, Fixed.ofInt 1⟩ : Point) = movHalfMs.init) = false := by
  decide

/-- C7, amended: for every movement whose duration is a positive whole
number of milliseconds representable in Q20.12, `State::update` on the
moving state returns the initial point at the start instant, the target at
every instant from `start + dur` on, and at intermediate instants the
straight-line convex combination with ratio
`clamp(elapsed_ms / dur_ms, 0, 1)` computed in Q20.12. -/
theorem moving_update_linear (m : Movement) (pen : PenState) (t : Nat)
    (h1 : 1000 ≤ m.dur) (h2 : m.dur % 1000 = 0) (h3 : m.dur < 524288000) :
    MState.update (.moving m pen) m.start = some (.moving m pen, m.init) ∧
    (m.start + m.dur ≤ t →
      MState.update (.moving m pen) t = some (.resting m.target pen, m.target)) ∧
    (m.start ≤ t → t < m.start + m.dur →
      (MState.update (.moving m pen) t).map Prod.snd = some (specLinearPoint m t)) := by
  have hn1 : 1 ≤ m.dur / 1000 := by omega
  have hn2 : m.dur / 1000 < 524288 := by omega
  have htot : 0 < (msToFixed (m.dur / 1000)).val := by
    show 0 < wrap (((m.dur / 1000 : Nat) : Int) * 4096)
    rw [wrap_eq_of_mem (by omega) (by omega)]
    omega
  have hdiv0 : (msToFixed 0).div (msToFixed (m.dur / 1000)) = Fixed.mk 0 := by
    unfold Fixed.div
    have h0 : (msToFixed 0).val = 0 := by
      show wrap (((0 : Nat) : Int) * 4096) = 0
      rw [Nat.cast_zero, Int.zero_mul, wrap_zero]
    rw [h0, Int.zero_mul, Int.zero_tdiv]
  have hclamp0 : (Fixed.mk 0).clampF (Fixed.mk 0) (Fixed.ofInt 1) = Fixed.mk 0 := by
    decide
  refine ⟨?_, ?_, ?_⟩
  · have hf : m.isFinished m.start = false := by
      simp only [Movement.isFinished, decide_eq_false_iff_not]
      omega
    simp only [MState.update, hf, Bool.false_eq_true, if_false]
    unfold Movement.interpolate
    rw [if_neg (by omega : ¬ m.start < m.start)]
    simp only [Nat.sub_self, Nat.zero_div, if_pos htot, hdiv0, hclamp0,
      Fixed.zero_mul, Fixed.add_zeroF, Option.map_some']
  · intro ht
    have hf : m.isFinished t = true := by
      simp only [Movement.isFinished, decide_eq_true_eq]
      omega
    simp only [MState.update, hf, if_true]
  · intro ht1 ht2
    have hf : m.isFinished t = false := by
      simp only [Movement.isFinished, decide_eq_false_iff_not]
      omega
    simp only [MState.update, hf, Bool.false_eq_true, if_false]
    unfold Movement.interpolate
    rw [if_neg (by omega : ¬ t < m.start)]
    simp only [if_pos htot, Option.map_some']
    rfl

/-- Concrete instance of the amended C7 theorem: a two-second movement from
(0,0) to (1,1) starting at instant 1000, sampled at its start instant. -/
theorem moving_update_linear_witness :
    MState.update
        (.moving ⟨⟨Fixed.ofInt 0, Fixed.ofInt 0⟩, ⟨Fixed.ofInt 1, Fixed.ofInt 1⟩,
          1000, 2000000⟩ .up) 1000 =
      some (.moving ⟨⟨Fixed.ofInt 0, Fixed.ofInt 0⟩, ⟨Fixed.ofInt 1, Fixed.ofInt 1⟩,
          1000, 2000000⟩ .up, ⟨Fixed.ofInt 0, Fixed.ofInt 0⟩) :=
  (moving_update_linear
    ⟨⟨Fixed.ofInt 0, Fixed.ofInt 0⟩, ⟨Fixed.ofInt 1, Fixed.ofInt 1⟩, 1000, 2000000⟩
    .up 1000 (by decide) (by decide) (by decide)).1

/-- C9: a lifting created by `pen_up` (resp. `pen_down`) from a resting
state completes at `now + 800` ms; the reported pen state is the old one
strictly before `now + 400` ms and the new one from then on, and
`State::update` reports the unchanged hand position at every instant. -/
theorem lifting_pen_report (cfg : Config) (sp : Fixed) (p : Point) (now t : Nat) :
    (Brachiograph.penUpAct ⟨cfg, sp, .resting p .down⟩ now).state =
        .lifting p .up (now + 800000) ∧
    (Brachiograph.pen (Brachiograph.penUpAct ⟨cfg, sp, .resting p .down⟩ now) t =
        if now + 400000 ≤ t then PenState.up else PenState.down) ∧
    ((MState.update (Brachiograph.penUpAct ⟨cfg, sp, .resting p .down⟩ now).state t).map
        Prod.snd = some p) ∧
    (Brachiograph.penDownAct ⟨cfg, sp, .resting p .up⟩ now).state =
        .lifting p .down (now + 800000) ∧
    (Brachiograph.pen (Brachiograph.penDownAct ⟨cfg, sp, .resting p .up⟩ now) t =
        if now + 400000 ≤ t then PenState.down else PenState.up) ∧
    ((MState.update (Brachiograph.penDownAct ⟨cfg, sp, .resting p .up⟩ now).state t).map
        Prod.snd = some p) := by
  have hsub : now + 800000 - 400000 = now + 400000 := by omega
  refine ⟨rfl, ?_, ?_, rfl, ?_, ?_⟩
  · show (if now + 800000 - 400000 ≤ t then PenState.up else PenState.up.notP) = _
    rw [hsub]
    rfl
  · show ((if now + 800000 ≤ t then some (.resting p .up, p)
        else some (.lifting p .up (now + 800000), p)) :
          Option (MState × Point)).map Prod.snd = some p
    by_cases h : now + 800000 ≤ t
    · rw [if_pos h]
      rfl
    · rw [if_neg h]
      rfl
  · show (if now + 800000 - 400000 ≤ t then PenState.down else PenState.down.notP) = _
    rw [hsub]
    rfl
  · show ((if now + 800000 ≤ t then some (.resting p .down, p)
        else some (.lifting p .down (now + 800000), p)) :
          Option (MState × Point)).map Prod.snd = some p
    by_cases h : now + 800000 ≤ t
    · rw [if_pos h]
      rfl
    · rw [if_neg h]
      rfl

/-- C10: `State::update` on a moving state panics (returns `none`) exactly
when `now` is strictly earlier than the movement's start instant, because
`Movement::interpolate` unwraps `checked_duration_since(start)`; for every
`now` at or after the start it returns a position. -/
theorem update_moving_none_iff (m : Movement) (pen : PenState) (now : Nat) :
    MState.update (.moving m pen) now = none ↔ now < m.start := by
  simp only [MState.update]
  by_cases hf : m.isFinished now = true
  · rw [if_pos hf]
    simp only [Movement.isFinished, decide_eq_true_eq] at hf
    constructor
    · intro h
      exact absurd h (by simp)
    · intro h
      omega
  · rw [if_neg hf]
    simp only [Movement.isFinished, decide_eq_true_eq] at hf
    unfold Movement.interpolate
    by_cases hn : now < m.start
    · rw [if_pos hn]
      simpa using hn
    · rw [if_neg hn]
      simp [hn]

/-!
Embedded controller (`embedded/src/main.rs`): the bounded operation queue,
the slow-operation dispatch arm and the Cancel arm of `usb_rx0`.
-/

/-- Raw servo duties (`ServoPosition` in `lib.rs`). -/
structure ServoPosition where
  shoulder : Int
  elbow : Int
  pen : Int
deriving DecidableEq

/-- A delta of raw servo duties (`ServoPositionDelta` in `lib.rs`). -/
structure ServoPositionDelta where
  shoulder : Int
  elbow : Int
deriving DecidableEq

/-- The wire operations (`Op` in `lib.rs`). -/
inductive Op
  | changePosition (d : ServoPositionDelta)
  | moveTo (p : Point)
  | penUp
  | penDown
  | cancel
  | calibrate (j : Joint) (d : Direction) (data : List (Int × Int))
  | getPosition
deriving DecidableEq

/-- The wire responses (`Resp` in `lib.rs`). -/
inductive Resp
  | ack
  | nack
  | queueFull
  | anglesR (a : Angles)
  | curPosition (p : ServoPosition)
deriving DecidableEq

/-- The capacity of the ring buffer backing `OpQueue`. -/
def queueCapacity : Nat := 32

/-- `OpQueue::enqueue`: fails (without touching the queue) when the ring
buffer is full, otherwise pushes at the back. -/
def enqueueOp (q : List Op) (op : Op) : Option (List Op) :=
  if q.length = queueCapacity then none else some (q ++ [op])

/-- The operations handled by the default (slow) arm of the `usb_rx0`
dispatch match: `MoveTo`, `PenUp` and `PenDown`. -/
def isSlowOp : Op → Bool
  | .moveTo _ => true
  | .penUp => true
  | .penDown => true
  | _ => false

/-- `validate_slow_op`: a `MoveTo` must satisfy `coord_is_valid`; every
other slow operation is accepted. -/
def validateSlowOp (cfg : Config) (op : Op) : Bool :=
  match op with
  | .moveTo p => coordIsValid cfg p.x p.y
  | _ => true

/-- The slow-operation arm of `usb_rx0`: an invalid operation answers
`Nack`, a full queue answers `QueueFull` leaving the queue unchanged, and
otherwise the operation is enqueued and answered `Ack`. -/
def dispatchSlowOp (cfg : Config) (q : List Op) (op : Op) : Resp × List Op :=
  if validateSlowOp cfg op then
    match enqueueOp q op with
    | none => (.queueFull, q)
    | some q2 => (.ack, q2)
  else (.nack, q)

/-- Iterated slow-operation dispatch: the responses sent for a burst of
operations, together with the final queue. -/
def runSlowOps (cfg : Config) : List Op → List Op → List Resp × List Op
  | [], q => ([], q)
  | op :: rest, q =>
    let d := dispatchSlowOp cfg q op
    let n := runSlowOps cfg rest d.2
    (d.1 :: n.1, n.2)

/-- The controller state of the embedded firmware (`State` in
`embedded/src/main.rs`). -/
inductive EmbState
  | raw
  | cooked (opQueue : List Op) (brachio : Brachiograph)
  | cooking (opQueue : List Op) (initP targetP : ServoPosition) (start finish : Nat)
deriving DecidableEq

/-- The `Op::Cancel` arm of `usb_rx0`: clears the operation queue of a
`Cooked` or `Cooking` state, leaves everything else (in particular the
whole `Brachiograph` motion state) unchanged, and answers `Ack`. -/
def applyCancel : EmbState → EmbState × Resp
  | .raw => (.raw, .ack)
  | .cooked _q b => (.cooked [] b, .ack)
  | .cooking _q i t s e => (.cooking [] i t s e, .ack)

theorem runSlowOps_append (cfg : Config) :
    ∀ (l1 l2 q : List Op),
      runSlowOps cfg (l1 ++ l2) q =
        ((runSlowOps cfg l1 q).1 ++ (runSlowOps cfg l2 (runSlowOps cfg l1 q).2).1,
         (runSlowOps cfg l2 (runSlowOps cfg l1 q).2).2) := by
  intro l1
  induction l1 with
  | nil => intro l2 q; simp [runSlowOps]
  | cons op rest ih => intro l2 q; simp [runSlowOps, ih]

theorem runSlowOps_acks (cfg : Config) :
    ∀ (l q : List Op), (∀ op ∈ l, validateSlowOp cfg op = true) →
      q.length + l.length ≤ 32 →
      runSlowOps cfg l q = (List.replicate l.length Resp.ack, q ++ l) := by
  intro l
  induction l with
  | nil => intro q _ _; simp [runSlowOps]
  | cons op rest ih =>
    intro q hval hlen
    have hv : validateSlowOp cfg op = true := hval op (by simp)
    simp only [List.length_cons] at hlen
    have hq : ¬ q.length = queueCapacity := by
      simp only [queueCapacity]
      omega
    have hlen2 : (q ++ [op]).length + rest.length ≤ 32 := by
      simp only [List.length_append, List.length_cons, List.length_nil]
      omega
    have hrec := ih (q ++ [op]) (fun o ho => hval o (List.mem_cons_of_mem op ho)) hlen2
    simp only [runSlowOps, dispatchSlowOp, hv, if_true, enqueueOp, hq, if_false, hrec,
      List.length_cons, List.replicate_succ, List.append_assoc, List.singleton_append,
      List.cons_append, List.nil_append]

/-- C5: starting from an empty queue, a burst of 33 valid slow operations
is answered with 32 `Ack`s followed by one `QueueFull`, and the failed 33rd
enqueue leaves the queue holding exactly the first 32 operations. -/
theorem op_queue_bound (ops : List Op) (h33 : ops.length = 33)
    (hval : ∀ op ∈ ops, validateSlowOp defaultConfig op = true) :
    runSlowOps defaultConfig ops [] =
      (List.replicate 32 Resp.ack ++ [Resp.queueFull], ops.take 32) := by
  obtain ⟨op33, hdrop⟩ : ∃ op33, ops.drop 32 = [op33] := by
    have hlen : (ops.drop 32).length = 1 := by simp [h33]
    match h : ops.drop 32 with
    | [a] => exact ⟨a, rfl⟩
    | [] => rw [h] at hlen; simp at hlen
    | a :: b :: l => rw [h] at hlen; simp at hlen
  have htake : ops.take 32 ++ [op33] = ops := by
    rw [← hdrop, List.take_append_drop]
  have hlen32 : (ops.take 32).length = 32 := by
    rw [List.length_take]
    omega
  have hval32 : ∀ op ∈ ops.take 32, validateSlowOp defaultConfig op = true :=
    fun op hop => hval op (List.take_subset _ _ hop)
  have h1 : runSlowOps defaultConfig (ops.take 32) [] =
      (List.replicate 32 Resp.ack, ops.take 32) := by
    have h := runSlowOps_acks defaultConfig (ops.take 32) [] hval32 (by simp [hlen32])
    rw [hlen32] at h
    simpa using h
  have hv33 : validateSlowOp defaultConfig op33 = true := by
    refine hval op33 (List.drop_subset 32 ops ?_)
    rw [hdrop]
    simp
  have h2 : runSlowOps defaultConfig [op33] (ops.take 32) =
      ([Resp.queueFull], ops.take 32) := by
    simp [runSlowOps, dispatchSlowOp, hv33, enqueueOp, queueCapacity, hlen32]
  have happ := runSlowOps_append defaultConfig (ops.take 32) [op33] []
  rw [htake] at happ
  rw [happ, h1, h2]

/-- Concrete instance of the C5 theorem: 33 `PenUp` operations. -/
theorem op_queue_bound_witness :
    runSlowOps defaultConfig (List.replicate 33 Op.penUp) [] =
      (List.replicate 32 Resp.ack ++ [Resp.queueFull],
       (List.replicate 33 Op.penUp).take 32) :=
  op_queue_bound (List.replicate 33 Op.penUp) (by decide)
    (fun op hop => by
      rw [List.eq_of_mem_replicate hop]
      rfl)

/-- A resting brachiograph used in the Cancel witness. -/
def brachioW : Brachiograph :=
  ⟨defaultConfig, Fixed.ofInt 4, .resting ⟨Fixed.ofInt (-8), Fixed.ofInt 8⟩ .up⟩

/-- A finished movement used in the Cancel witness. -/
def movW8 : Movement :=
  ⟨⟨Fixed.ofInt (-8), Fixed.ofInt 8⟩, ⟨Fixed.ofInt 0, Fixed.ofInt 8⟩, 0, 1000⟩

/-- C8: processing `Op::Cancel` empties the operation queue of a `Cooked`
or `Cooking` state and changes nothing else (the `Brachiograph`, and with
it any in-progress movement or lifting, is untouched; a `Raw` state is
returned unchanged), answering `Ack`; consequently an in-progress movement
still completes: updating it at or past its end instant yields its target. -/
theorem cancel_clears_queue_only (q : List Op) (b : Brachiograph)
    (ip tp : ServoPosition) (s e : Nat) (m : Movement) (pen : PenState) (t : Nat) :
    applyCancel (.cooked q b) = (.cooked [] b, .ack) ∧
    applyCancel (.cooking q ip tp s e) = (.cooking [] ip tp s e, .ack) ∧
    applyCancel .raw = (.raw, .ack) ∧
    (m.start + m.dur ≤ t →
      MState.update (.moving m pen) t = some (.resting m.target pen, m.target)) := by
  refine ⟨rfl, rfl, rfl, fun h => ?_⟩
  have hf : m.isFinished t = true := by
    simp only [Movement.isFinished, decide_eq_true_eq]
    omega
  simp only [MState.update, hf, if_true]

/-- Concrete instance of the C8 theorem: cancelling with one queued
operation, then finishing a movement. -/
theorem cancel_clears_queue_only_witness :
    applyCancel (.cooked [Op.penUp] brachioW) = (.cooked [] brachioW, .ack) ∧
      MState.update (.moving movW8 .up) 2000 =
        some (.resting movW8.target .up, movW8.target) :=
  ⟨(cancel_clears_queue_only [Op.penUp] brachioW ⟨0, 0, 0⟩ ⟨0, 0, 0⟩ 0 0
      movW8 .up 2000).1,
   (cancel_clears_queue_only [Op.penUp] brachioW ⟨0, 0, 0⟩ ⟨0, 0, 0⟩ 0 0
      movW8 .up 2000).2.2.2 (by decide)⟩

